import Mathlib

/-!
Verification of the `ConnectionManager` HTTP-session wrapper
(`src/connection-manager.py`) against its natural-language specification.

The Python class is shallowly embedded:

* the Python `dict` used for request headers becomes an association list
  `Dict` with Python-`dict` semantics (`get`/`[k] = v`/`pop(k, None)`),
  where a stored value is `Option String` because Python values may be
  `None`;
* the configuration held by a `ConnectionManager` instance becomes the
  structure `CMState`, and each method becomes a Lean function on it;
* `urllib.parse.urljoin` (the external standard-library routine the code
  delegates URL resolution to) is embedded by transcribing CPython's
  `urlsplit`/`urlparse`/`urlunsplit`/`urlunparse`/`urljoin` algorithms over
  `List Char`;
* the HTTP transport (`requests.Session`) becomes an oracle
  `Transport : Nat → Request → Except String Response`: the `n`-th
  transport call either returns a response object or raises an exception
  carrying message `e` (`Except.error e`); the four `raw_*` methods thread
  a call counter so that the number of transport invocations is visible;
* Python's object aliasing, which matters for the mutable-default-argument
  behaviour of `headers={}` and for `clean_headers` rebinding
  `self.headers`, is captured by a small heap model (`Heap`, `HeapCM`)
  where a header mapping is a reference (index) into a store of dicts.
-/

/-! ## Python `dict` semantics (string keys, possibly-`None` values) -/

/-- A Python `dict` with string keys whose values are strings or `None`
(`none`).  Keys are unique; insertion order is preserved, and updating an
existing key keeps its position, exactly as CPython dicts do. -/
abbrev Dict := List (String × Option String)

/-- `d.get(k)`: `some v` when `k` is present bound to `v`, `none` when
absent.  (Note `v` itself is an `Option String`, so a key bound to Python
`None` yields `some none`.) -/
def dictGet (d : Dict) (k : String) : Option (Option String) :=
  match d with
  | [] => none
  | (k', v) :: rest => if k' = k then some v else dictGet rest k

/-- `d[k] = v`: overwrite in place when present, append when absent. -/
def dictSet (d : Dict) (k : String) (v : Option String) : Dict :=
  match d with
  | [] => [(k, v)]
  | (k', v') :: rest =>
    if k' = k then (k', v) :: rest else (k', v') :: dictSet rest k v

/-- `d.pop(k, None)`: remove `k` when present; no effect (and no error)
when absent. -/
def dictPop (d : Dict) (k : String) : Dict :=
  match d with
  | [] => []
  | (k', v') :: rest => if k' = k then rest else (k', v') :: dictPop rest k

/-! ## The `ConnectionManager` configuration and its methods -/

/-- The `verify` parameter: a boolean, or a path to a CA bundle. -/
inductive VerifyVal where
  | bool (b : Bool)
  | caBundle (path : String)
deriving DecidableEq, Repr

/-- The configuration an instance carries: `_base_url`, `_headers`,
`_timeout`, `_verify` (cf. `ConnectionManager.__init__`).  The
`requests.Session` itself is external and is modelled separately as the
transport oracle. -/
structure CMState where
  base_url : String
  headers : Dict
  timeout : Int
  verify : VerifyVal
deriving DecidableEq, Repr

/-- `param_headers(key)`: `self.headers.get(key)`.  Python's
`dict.get` returns `None` both for a missing key and for a key bound to
`None`, hence the `Option.join`. -/
def param_headers (cm : CMState) (key : String) : Option String :=
  Option.join (dictGet cm.headers key)

/-- `clean_headers()`: `self.headers = {}` — rebinds the attribute to a
fresh empty mapping. -/
def clean_headers (cm : CMState) : CMState :=
  { cm with headers := [] }

/-- `exist_param_headers(key)`: `self.param_headers(key) is not None`. -/
def exist_param_headers (cm : CMState) (key : String) : Bool :=
  (param_headers cm key).isSome

/-- `add_param_headers(key, value)`: `self.headers[key] = value`. -/
def add_param_headers (cm : CMState) (key : String) (value : Option String) :
    CMState :=
  { cm with headers := dictSet cm.headers key value }

/-- `del_param_headers(key)`: `self.headers.pop(key, None)`. -/
def del_param_headers (cm : CMState) (key : String) : CMState :=
  { cm with headers := dictPop cm.headers key }

/-- The `base_url` property setter. -/
def set_base_url (cm : CMState) (value : String) : CMState :=
  { cm with base_url := value }

/-- The `timeout` property setter. -/
def set_timeout (cm : CMState) (value : Int) : CMState :=
  { cm with timeout := value }

/-- The `verify` property setter. -/
def set_verify (cm : CMState) (value : VerifyVal) : CMState :=
  { cm with verify := value }

/-- The `headers` property setter. -/
def set_headers (cm : CMState) (value : Dict) : CMState :=
  { cm with headers := value }

/-! ## `urllib.parse.urljoin`

The code resolves target URLs with `urljoin(self.base_url, path)`.
`urljoin` lives in Python's standard library; the definitions below
transcribe CPython's `urllib/parse.py` algorithms (`urlsplit`, the
params split of `urlparse`, `urlunsplit`, `urlunparse`, `urljoin`) over
`List Char`. -/

namespace PyUrl

/-- Character strings, as CPython manipulates them inside `urllib.parse`. -/
abbrev Chars := List Char

/-- Split at the first occurrence of `c`: `some (before, after)` when `c`
occurs, `none` otherwise (cf. `str.find` + slicing / `str.split(c, 1)`). -/
def splitFirst (c : Char) : Chars → Option (Chars × Chars)
  | [] => none
  | x :: xs =>
    if x = c then some ([], xs)
    else
      match splitFirst c xs with
      | none => none
      | some (a, b) => some (x :: a, b)

/-- Split at the last occurrence of `c` (cf. `str.rfind`). -/
def splitLast (c : Char) : Chars → Option (Chars × Chars)
  | [] => none
  | x :: xs =>
    match splitLast c xs with
    | some (a, b) => some (x :: a, b)
    | none => if x = c then some ([], xs) else none

/-- `str.split(c)` — always returns at least one piece. -/
def splitOnChar (c : Char) : Chars → List Chars
  | [] => [[]]
  | x :: xs =>
    match splitOnChar c xs with
    | [] => [[]]
    | h :: t => if x = c then [] :: h :: t else (x :: h) :: t

/-- `c.join(pieces)`. -/
def joinWith (c : Char) : List Chars → Chars
  | [] => []
  | s :: ss =>
    match ss with
    | [] => s
    | _ :: _ => s ++ c :: joinWith c ss

/-- The characters allowed in a URL scheme after the initial letter
(CPython's `scheme_chars`). -/
def isSchemeChar (c : Char) : Bool :=
  c.isAlpha || c.isDigit || c = '+' || c = '-' || c = '.'

/-- CPython `uses_relative`. -/
def usesRelative : List Chars :=
  [[], "ftp".data, "http".data, "gopher".data, "nntp".data, "imap".data,
   "wais".data, "file".data, "https".data, "shttp".data, "mms".data,
   "prospero".data, "rtsp".data, "rtspu".data, "sftp".data,
   "svn".data, "svn+ssh".data, "ws".data, "wss".data]

/-- CPython `uses_netloc`. -/
def usesNetloc : List Chars :=
  [[], "ftp".data, "http".data, "gopher".data, "nntp".data, "telnet".data,
   "imap".data, "wais".data, "file".data, "mms".data, "https".data,
   "shttp".data, "snews".data, "prospero".data, "rtsp".data, "rtspu".data,
   "rsync".data, "svn".data, "svn+ssh".data, "sftp".data, "nfs".data,
   "git".data, "git+ssh".data, "ws".data, "wss".data,
   "itms-services".data]

/-- CPython `uses_params`. -/
def usesParams : List Chars :=
  [[], "ftp".data, "hdl".data, "prospero".data, "http".data, "imap".data,
   "mms".data, "news".data, "nntp".data, "prospero".data, "rsync".data,
   "rtsp".data, "rtspu".data, "sftp".data, "shttp".data, "sip".data,
   "sips".data, "snews".data, "svn".data, "svn+ssh".data, "telnet".data,
   "ws".data, "wss".data]

/-- Result of `urlsplit`. -/
structure SplitResult where
  scheme : Chars
  netloc : Chars
  path : Chars
  query : Chars
  fragment : Chars
deriving DecidableEq, Repr

/-- CPython `_splitnetloc`: the netloc extends to the first `/`, `?` or
`#`; the delimiter stays with the remainder. -/
def splitNetloc : Chars → Chars × Chars
  | [] => ([], [])
  | x :: xs =>
    if x = '/' ∨ x = '?' ∨ x = '#' then ([], x :: xs)
    else
      let p := splitNetloc xs
      (x :: p.1, p.2)

/-- `url[:2] == '//'`. -/
def startsDoubleSlash : Chars → Bool
  | a :: b :: _ => a = '/' && b = '/'
  | _ => false

/-- The validity test CPython applies to a candidate scheme prefix:
non-empty, starts with a letter, made of scheme characters. -/
def schemeOk (a : Chars) : Bool :=
  !a.isEmpty && a.head?.all Char.isAlpha && a.all isSchemeChar

/-- The scheme-detection step of `urlsplit`: at the first `:`, when the
prefix is a valid scheme, lowercase it and continue with the remainder;
otherwise keep the default scheme and the whole url. -/
def schemeSplit (url scheme0 : Chars) : Chars × Chars :=
  match splitFirst ':' url with
  | some p =>
    if schemeOk p.1 then (p.1.map Char.toLower, p.2) else (scheme0, url)
  | none => (scheme0, url)

/-- The netloc step of `urlsplit`: when the remainder starts `//`, the
netloc runs to the next `/`, `?` or `#`. -/
def netlocSplit (l : Chars) : Chars × Chars :=
  if startsDoubleSlash l then splitNetloc (l.drop 2) else ([], l)

/-- `str.split(c, 1)` keeping everything when `c` is absent — the
fragment and query steps of `urlsplit`. -/
def cutFirst (c : Char) (l : Chars) : Chars × Chars :=
  match splitFirst c l with
  | some p => p
  | none => (l, [])

/-- CPython `urlsplit(url, scheme)` (with `allow_fragments=True`, as
`urljoin` uses it): detect a scheme prefix, then `//netloc`, then split
off the fragment, then the query. -/
def urlsplit (url : Chars) (scheme0 : Chars) : SplitResult :=
  let p1 := schemeSplit url scheme0
  let p2 := netlocSplit p1.2
  let p3 := cutFirst '#' p2.2
  let p4 := cutFirst '?' p3.1
  ⟨p1.1, p2.1, p4.1, p4.2, p3.2⟩

/-- Result of `urlparse`: `urlsplit` plus the `;params` component. -/
structure ParseResult where
  scheme : Chars
  netloc : Chars
  path : Chars
  params : Chars
  query : Chars
  fragment : Chars
deriving DecidableEq, Repr

/-- CPython `_splitparams`: the params start at the first `;` of the last
path segment. -/
def splitParams (path : Chars) : Chars × Chars :=
  match splitLast '/' path with
  | some (before, last) =>
    match splitFirst ';' last with
    | none => (path, [])
    | some (a, b) => (before ++ '/' :: a, b)
  | none =>
    match splitFirst ';' path with
    | none => (path, [])
    | some (a, b) => (a, b)

/-- CPython `urlparse(url, scheme)`. -/
def urlparse (url : Chars) (scheme0 : Chars) : ParseResult :=
  let r := urlsplit url scheme0
  if usesParams.contains r.scheme ∧ r.path.contains ';' then
    let p := splitParams r.path
    ⟨r.scheme, r.netloc, p.1, p.2, r.query, r.fragment⟩
  else
    ⟨r.scheme, r.netloc, r.path, [], r.query, r.fragment⟩

/-- CPython `urlunsplit`. -/
def urlunsplit (scheme netloc path query fragment : Chars) : Chars :=
  let url := path
  let url :=
    if netloc ≠ [] ∨ ('/' :: '/' :: []).isPrefixOf url then
      let u := if url ≠ [] ∧ url.head? ≠ some '/' then '/' :: url else url
      '/' :: '/' :: (netloc ++ u)
    else url
  let url := if scheme ≠ [] then scheme ++ ':' :: url else url
  let url := if query ≠ [] then url ++ '?' :: query else url
  if fragment ≠ [] then url ++ '#' :: fragment else url

/-- CPython `urlunparse`. -/
def urlunparse (r : ParseResult) : Chars :=
  let path := if r.params ≠ [] then r.path ++ ';' :: r.params else r.path
  urlunsplit r.scheme r.netloc path r.query r.fragment

/-- The `..`/`.` resolution loop of CPython `urljoin` (`resolved_path`
accumulation; popping an empty list is the caught `IndexError`). -/
def resolveSegments (acc : List Chars) : List Chars → List Chars
  | [] => acc
  | seg :: rest =>
    if seg = ['.', '.'] then resolveSegments acc.dropLast rest
    else if seg = ['.'] then resolveSegments acc rest
    else resolveSegments (acc ++ [seg]) rest

/-- `segments[1:-1] = filter(None, segments[1:-1])`: drop empty segments,
keeping the first and the last. -/
def filterEmptyButLast : List Chars → List Chars
  | [] => []
  | [a] => [a]
  | a :: b :: rest =>
    if a = [] then filterEmptyButLast (b :: rest)
    else a :: filterEmptyButLast (b :: rest)

def filterMiddle : List Chars → List Chars
  | [] => []
  | a :: rest => a :: filterEmptyButLast rest

/-- CPython `urljoin(base, url)`. -/
def urljoin (base url : Chars) : Chars :=
  if base = [] then url
  else if url = [] then base
  else
    let b := urlparse base []
    let r := urlparse url b.scheme
    if r.scheme ≠ b.scheme ∨ ¬ usesRelative.contains r.scheme then url
    else if usesNetloc.contains r.scheme ∧ r.netloc ≠ [] then
      urlunparse r
    else
      let netloc := if usesNetloc.contains r.scheme then b.netloc else r.netloc
      if r.path = [] ∧ r.params = [] then
        let query := if r.query = [] then b.query else r.query
        urlunparse ⟨r.scheme, netloc, b.path, b.params, query, r.fragment⟩
      else
        let baseParts0 := splitOnChar '/' b.path
        let baseParts :=
          if baseParts0.getLast? = some ([] : Chars) then baseParts0
          else baseParts0.dropLast
        let segments :=
          if r.path.head? = some '/' then splitOnChar '/' r.path
          else filterMiddle (baseParts ++ splitOnChar '/' r.path)
        let resolved := resolveSegments [] segments
        let resolved :=
          match segments.getLast? with
          | some s => if s = ['.'] ∨ s = ['.', '.'] then resolved ++ [[]] else resolved
          | none => resolved
        let joined := joinWith '/' resolved
        let finalPath := if joined = [] then ['/'] else joined
        urlunparse ⟨r.scheme, netloc, finalPath, r.params, r.query, r.fragment⟩

end PyUrl

/-! ## Requests, responses, and the four `raw_*` methods

`requests.Session` is external; it is modelled as an oracle indexed by a
call counter, so that the number of transport invocations a method makes
is part of the state.  `Except.error e` models the underlying call
raising an exception whose string form is `e`; `Except.ok r` models a
completed HTTP exchange, including 4xx/5xx responses (`requests` does not
raise on status codes). -/

/-- HTTP method of a request issued by the wrapper. -/
inductive Method where
  | get
  | post
  | put
  | delete
deriving DecidableEq, Repr

/-- What one `raw_*` call hands to `requests`: the joined URL, `params=`
(query), `data=` (body — `none` when the verb passes no body), `headers=`,
`timeout=`, `verify=`. -/
structure Request where
  method : Method
  url : PyUrl.Chars
  params : List (String × String)
  body : Option Dict
  headers : Dict
  timeout : Int
  verify : VerifyVal
deriving DecidableEq, Repr

/-- A raw HTTP response: status code, response headers, body.  The
wrapper returns it untouched. -/
structure Response where
  status : Nat
  fields : List (String × String)
  body : String
deriving DecidableEq, Repr

/-- The transport oracle: the outcome of the `n`-th call the session
makes for a given request.  `Except.error e` is an exception with message
`e` raised by the underlying call. -/
def Transport : Type := Nat → Request → Except String Response

/-- `urljoin(self.base_url, path)`, as every `raw_*` method computes it. -/
def targetUrl (cm : CMState) (path : String) : PyUrl.Chars :=
  PyUrl.urljoin cm.base_url.data path.data

/-- `Exception("Can't connect to server (%s)" % e)`. -/
def wrapErr (e : String) : String :=
  "Can't connect to server (" ++ e ++ ")"

/-- The request `raw_get(path, **kwargs)` hands to `self._s.get`. -/
def getRequest (cm : CMState) (path : String)
    (kwargs : List (String × String)) : Request :=
  ⟨.get, targetUrl cm path, kwargs, none, cm.headers, cm.timeout, cm.verify⟩

/-- The request `raw_post(path, data, **kwargs)` hands to `self._s.post`. -/
def postRequest (cm : CMState) (path : String) (data : Dict)
    (kwargs : List (String × String)) : Request :=
  ⟨.post, targetUrl cm path, kwargs, some data, cm.headers, cm.timeout,
   cm.verify⟩

/-- The request `raw_put(path, data, **kwargs)` hands to `self._s.put`. -/
def putRequest (cm : CMState) (path : String) (data : Dict)
    (kwargs : List (String × String)) : Request :=
  ⟨.put, targetUrl cm path, kwargs, some data, cm.headers, cm.timeout,
   cm.verify⟩

/-- The request `raw_delete(path, data=None, **kwargs)` hands to
`self._s.delete`; `data or dict()` turns an omitted (or falsy) payload
into an empty dict. -/
def deleteRequest (cm : CMState) (path : String) (data : Option Dict)
    (kwargs : List (String × String)) : Request :=
  ⟨.delete, targetUrl cm path, kwargs, some (data.getD []), cm.headers,
   cm.timeout, cm.verify⟩

/-- `raw_get`: one transport call; an exception from it is re-raised as
the single generic connection error.  Returns the outcome, the advanced
call counter, and the (unassigned, hence unchanged) configuration. -/
def raw_get (cm : CMState) (path : String) (kwargs : List (String × String))
    (t : Transport) (n : Nat) : Except String Response × Nat × CMState :=
  match t n (getRequest cm path kwargs) with
  | .ok r => (.ok r, n + 1, cm)
  | .error e => (.error (wrapErr e), n + 1, cm)

/-- `raw_post`. -/
def raw_post (cm : CMState) (path : String) (data : Dict)
    (kwargs : List (String × String)) (t : Transport) (n : Nat) :
    Except String Response × Nat × CMState :=
  match t n (postRequest cm path data kwargs) with
  | .ok r => (.ok r, n + 1, cm)
  | .error e => (.error (wrapErr e), n + 1, cm)

/-- `raw_put`. -/
def raw_put (cm : CMState) (path : String) (data : Dict)
    (kwargs : List (String × String)) (t : Transport) (n : Nat) :
    Except String Response × Nat × CMState :=
  match t n (putRequest cm path data kwargs) with
  | .ok r => (.ok r, n + 1, cm)
  | .error e => (.error (wrapErr e), n + 1, cm)

/-- `raw_delete`. -/
def raw_delete (cm : CMState) (path : String) (data : Option Dict)
    (kwargs : List (String × String)) (t : Transport) (n : Nat) :
    Except String Response × Nat × CMState :=
  match t n (deleteRequest cm path data kwargs) with
  | .ok r => (.ok r, n + 1, cm)
  | .error e => (.error (wrapErr e), n + 1, cm)

/-! ## Sequences of public operations

For the persistence claim about `add_param_headers`, the public
operations that act on an instance are reified as `Op`.  A `raw_*` call
assigns no attribute (see `raw_get` above: the configuration component is
returned unchanged), so its effect on the configuration is the
identity. -/

/-- One public operation on a `ConnectionManager` instance: the header
operations, the four property setters (including the full headers
setter), and the request methods. -/
inductive Op where
  | addH (k : String) (v : Option String)
  | delH (k : String)
  | cleanH
  | setBase (u : String)
  | setTimeout (t : Int)
  | setVerify (v : VerifyVal)
  | setHeaders (d : Dict)
  | request (m : Method) (path : String) (params : List (String × String))
      (body : Option Dict)
deriving DecidableEq, Repr

/-- The effect of one operation on the configuration.  The `request` case
is the identity because none of `raw_get`/`raw_post`/`raw_put`/
`raw_delete` assigns an attribute. -/
def applyOp (cm : CMState) : Op → CMState
  | .addH k v => add_param_headers cm k v
  | .delH k => del_param_headers cm k
  | .cleanH => clean_headers cm
  | .setBase u => set_base_url cm u
  | .setTimeout t => set_timeout cm t
  | .setVerify v => set_verify cm v
  | .setHeaders d => set_headers cm d
  | .request _ _ _ _ => cm

/-- `op` overwrites key `k` via `add_param_headers` or removes it via
`del_param_headers`/`clean_headers` — the exclusions exactly as the
original claim words them (the headers setter is *not* among them). -/
def removesOrOverwrites (k : String) : Op → Prop
  | .addH k' _ => k' = k
  | .delH k' => k' = k
  | .cleanH => True
  | _ => False

instance (k : String) (op : Op) : Decidable (removesOrOverwrites k op) := by
  cases op <;> simp only [removesOrOverwrites] <;> infer_instance

/-- `op` disturbs the binding of key `k` to string value `v`: it
overwrites `k` via `add_param_headers`, removes it via
`del_param_headers`/`clean_headers`, or assigns a whole new header
mapping in which `k` is no longer bound to `v`. -/
def disturbs (k : String) (v : String) : Op → Prop
  | .addH k' _ => k' = k
  | .delH k' => k' = k
  | .cleanH => True
  | .setHeaders d => dictGet d k ≠ some (some v)
  | _ => False

instance (k v : String) (op : Op) : Decidable (disturbs k v op) := by
  cases op <;> simp only [disturbs] <;> infer_instance

/-! ## Object identity: the heap model

Two behaviours of the source depend on Python object identity, not just
on values: the shared mutable default argument `headers={}` in
`__init__`, and `clean_headers` rebinding `self.headers` to a *new* dict.
Here a dict lives in a store (`Heap`) and an instance holds a reference
(index) into it. -/

/-- A store of dict objects; a reference is an index. -/
abbrev Heap := List Dict

/-- Dereference (total: the claims only use valid references). -/
def heapGet (h : Heap) (r : Nat) : Dict := h[r]?.getD []

/-- In-place update of the object at `r`. -/
def heapSet (h : Heap) (r : Nat) (d : Dict) : Heap := h.set r d

/-- An instance in the heap model: the `_headers` attribute is a
reference to a dict object. -/
structure HeapCM where
  base_url : String
  headersRef : Nat
  timeout : Int
  verify : VerifyVal
deriving DecidableEq, Repr

/-- The module-level default dict object created once for the
`headers={}` default argument: reference `0` in the initial heap. -/
def defaultHeadersRef : Nat := 0

/-- The heap as the module is loaded: just the default-argument dict. -/
def initHeap : Heap := [[]]

/-- `__init__(base_url, headers={}, timeout=60, verify=True)`:
`self.headers = headers` stores the reference that was passed — when the
argument is omitted, the shared default object `defaultHeadersRef`.
Nothing is copied and nothing is allocated. -/
def mkHeapCM (base_url : String) (headersArg : Option Nat)
    (timeout : Int) (verify : VerifyVal) : HeapCM :=
  ⟨base_url, headersArg.getD defaultHeadersRef, timeout, verify⟩

/-- `add_param_headers` in the heap model: mutates the dict object
`self.headers` refers to. -/
def hAddParamHeaders (cm : HeapCM) (k : String) (v : Option String)
    (h : Heap) : Heap :=
  heapSet h cm.headersRef (dictSet (heapGet h cm.headersRef) k v)

/-- `del_param_headers` in the heap model. -/
def hDelParamHeaders (cm : HeapCM) (k : String) (h : Heap) : Heap :=
  heapSet h cm.headersRef (dictPop (heapGet h cm.headersRef) k)

/-- `param_headers` in the heap model. -/
def hParamHeaders (cm : HeapCM) (h : Heap) (k : String) : Option String :=
  Option.join (dictGet (heapGet h cm.headersRef) k)

/-- `exist_param_headers` in the heap model. -/
def hExistParamHeaders (cm : HeapCM) (h : Heap) (k : String) : Bool :=
  (hParamHeaders cm h k).isSome

/-- `clean_headers` in the heap model: `self.headers = {}` allocates a
fresh empty dict object and rebinds the attribute to it; the old object
is not touched. -/
def hCleanHeaders (cm : HeapCM) (h : Heap) : HeapCM × Heap :=
  ({ cm with headersRef := h.length }, h ++ [[]])

/-! ## Concrete fixtures used to instantiate the theorems -/

/-- A sample configuration. -/
def cmEx : CMState := ⟨"http://host/api/", [("X-Token", some "abc")], 60, .bool true⟩

/-- A transport on which every call raises (message `"timeout"`). -/
def tErr : Transport := fun _ _ => .error "timeout"

/-- A transport on which every call completes with an HTTP 500 response. -/
def tServerError : Transport := fun _ _ => .ok ⟨500, [], "oops"⟩

/-- The keys of a well-formed Python dict are distinct (an invariant of
the Python `dict` type itself, which `Dict` represents). -/
def DictWF (d : Dict) : Prop := (d.map Prod.fst).Nodup

instance (d : Dict) : Decidable (DictWF d) := by
  unfold DictWF
  infer_instance

/-! ## Dict lemmas -/

theorem dictGet_dictSet_self (d : Dict) (k : String) (v : Option String) :
    dictGet (dictSet d k v) k = some v := by
  induction d with
  | nil => simp [dictSet, dictGet]
  | cons p rest ih =>
    obtain ⟨k', v'⟩ := p
    by_cases h : k' = k
    · simp [dictSet, dictGet, h]
    · simp [dictSet, dictGet, h, ih]

theorem dictGet_dictSet_ne (d : Dict) (k k' : String) (v : Option String)
    (h : k' ≠ k) : dictGet (dictSet d k' v) k = dictGet d k := by
  induction d with
  | nil => simp [dictSet, dictGet, h]
  | cons p rest ih =>
    obtain ⟨k₀, v₀⟩ := p
    by_cases h0 : k₀ = k'
    · subst h0
      simp [dictSet, dictGet, h]
    · by_cases h1 : k₀ = k <;> simp [dictSet, dictGet, h0, h1, ih, Ne.symm h]

theorem dictGet_dictPop_ne (d : Dict) (k k' : String) (h : k' ≠ k) :
    dictGet (dictPop d k') k = dictGet d k := by
  induction d with
  | nil => simp [dictPop]
  | cons p rest ih =>
    obtain ⟨k₀, v₀⟩ := p
    by_cases h0 : k₀ = k'
    · subst h0
      simp [dictPop, dictGet, h]
    · by_cases h1 : k₀ = k <;> simp [dictPop, dictGet, h0, h1, ih, Ne.symm h]

theorem dictGet_eq_none_of_not_mem (d : Dict) (k : String)
    (h : k ∉ d.map Prod.fst) : dictGet d k = none := by
  induction d with
  | nil => rfl
  | cons p rest ih =>
    obtain ⟨k₀, v₀⟩ := p
    simp only [List.map_cons, List.mem_cons] at h
    push_neg at h
    simp [dictGet, Ne.symm h.1, ih h.2]

theorem dictGet_dictPop_self (d : Dict) (k : String) (hwf : DictWF d) :
    dictGet (dictPop d k) k = none := by
  induction d with
  | nil => rfl
  | cons p rest ih =>
    obtain ⟨k₀, v₀⟩ := p
    simp only [DictWF, List.map_cons, List.nodup_cons] at hwf
    by_cases h0 : k₀ = k
    · subst h0
      simpa [dictPop] using dictGet_eq_none_of_not_mem rest k₀ hwf.1
    · simp [dictPop, dictGet, h0, ih hwf.2]

/-! ## Header-operation claims -/

theorem param_headers_applyOp (cm : CMState) (k v : String) (op : Op)
    (hcm : param_headers cm k = some v) (h : ¬ disturbs k v op) :
    param_headers (applyOp cm op) k = some v := by
  cases op with
  | addH k' v' =>
    simp only [disturbs] at h
    simpa [applyOp, add_param_headers, param_headers,
      dictGet_dictSet_ne cm.headers k k' v' h] using hcm
  | delH k' =>
    simp only [disturbs] at h
    simpa [applyOp, del_param_headers, param_headers,
      dictGet_dictPop_ne cm.headers k k' h] using hcm
  | cleanH => exact absurd trivial h
  | setBase u => exact hcm
  | setTimeout t => exact hcm
  | setVerify v' => exact hcm
  | setHeaders d =>
    simp only [disturbs, not_not] at h
    simp [applyOp, set_headers, param_headers, h]
  | request m p ps b => exact hcm

theorem param_headers_foldl (cm : CMState) (k v : String) (ops : List Op)
    (hcm : param_headers cm k = some v)
    (h : ∀ op ∈ ops, ¬ disturbs k v op) :
    param_headers (ops.foldl applyOp cm) k = some v := by
  induction ops generalizing cm with
  | nil => exact hcm
  | cons op rest ih =>
    rw [List.foldl_cons]
    exact ih _
      (param_headers_applyOp cm k v op hcm (h op (List.mem_cons_self op rest)))
      fun o ho => h o (List.mem_cons_of_mem _ ho)

/-- C3 counterexample: the headers property setter is a public operation
that neither overwrites `k` via `add_param_headers` nor removes it via
`del_param_headers`/`clean_headers`, yet assigning a fresh mapping
through it (`cm.headers = {}`) makes `param_headers(k)` stop returning
the added value — so the claim, quantified over all such sequences, fails
at this concrete input. -/
theorem added_header_persists_counterexample :
    (∀ op ∈ [Op.setHeaders []], ¬ removesOrOverwrites "a" op) ∧
    param_headers
      ([Op.setHeaders []].foldl applyOp
        (add_param_headers ⟨"http://h", [], 60, .bool true⟩ "a" (some "1")))
      "a" ≠ some "1" := by
  constructor <;> decide

/-- C3 (amended): after `add_param_headers(k, v)`, `param_headers(k)`
returns `v`, and keeps returning `v` across any sequence of public
operations none of which overwrites `k` via `add_param_headers`, removes
it via `del_param_headers`/`clean_headers`, or assigns a new header
mapping via the headers setter in which `k` is not bound to `v`. -/
theorem added_header_persists (cm : CMState) (k v : String) (ops : List Op)
    (h : ∀ op ∈ ops, ¬ disturbs k v op) :
    param_headers (ops.foldl applyOp (add_param_headers cm k (some v))) k
      = some v := by
  refine param_headers_foldl _ _ _ _ ?_ h
  simp [param_headers, add_param_headers, dictGet_dictSet_self]

theorem added_header_persists_witness :
    param_headers
      ([Op.delH "other", Op.setBase "http://u", Op.request .get "/p" [] none,
        Op.setHeaders [("a", some "1"), ("c", some "3")],
        Op.addH "b" (some "2")].foldl applyOp
        (add_param_headers ⟨"http://h", [], 60, .bool true⟩ "a" (some "1"))) "a"
      = some "1" :=
  added_header_persists ⟨"http://h", [], 60, .bool true⟩ "a" "1"
    [Op.delH "other", Op.setBase "http://u", Op.request .get "/p" [] none,
     Op.setHeaders [("a", some "1"), ("c", some "3")],
     Op.addH "b" (some "2")] (by decide)

/-- C6: `del_param_headers(k)` is total (it never raises, present key or
not — `dict.pop(key, None)`), afterwards `param_headers(k)` is the absent
marker, and every other key's value is unchanged. -/
theorem del_param_headers_spec (cm : CMState) (k : String)
    (hwf : DictWF cm.headers) :
    param_headers (del_param_headers cm k) k = none ∧
    ∀ k', k' ≠ k →
      param_headers (del_param_headers cm k) k' = param_headers cm k' := by
  constructor
  · simp [param_headers, del_param_headers,
      dictGet_dictPop_self cm.headers k hwf]
  · intro k' hk
    simp [param_headers, del_param_headers,
      dictGet_dictPop_ne cm.headers k' k (Ne.symm hk)]

theorem del_param_headers_spec_witness :
    param_headers (del_param_headers ⟨"u", [("a", some "1"), ("b", some "2")],
        60, .bool true⟩ "a") "a" = none ∧
    param_headers (del_param_headers ⟨"u", [("a", some "1"), ("b", some "2")],
        60, .bool true⟩ "a") "b" = some "2" := by
  have h := del_param_headers_spec
    ⟨"u", [("a", some "1"), ("b", some "2")], 60, .bool true⟩ "a" (by decide)
  exact ⟨h.1, by rw [h.2 "b" (by decide)]; decide⟩

/-- C7: after `clean_headers()` the mapping is empty —
`exist_param_headers(k)` is `false` for every key, whatever was added
before. -/
theorem clean_headers_clears (cm : CMState) (k : String) :
    exist_param_headers (clean_headers cm) k = false := rfl

theorem clean_headers_clears_witness :
    exist_param_headers
      (clean_headers (add_param_headers ⟨"u", [], 60, .bool true⟩ "a"
        (some "1"))) "a" = false :=
  clean_headers_clears _ "a"

/-- C8: `exist_param_headers(k)` is `true` exactly when
`param_headers(k)` is not the absent marker. -/
theorem exist_param_headers_iff (cm : CMState) (k : String) :
    exist_param_headers cm k = true ↔ param_headers cm k ≠ none := by
  simp [exist_param_headers, Option.isSome_iff_ne_none]

theorem exist_param_headers_iff_witness :
    exist_param_headers ⟨"u", [("a", some "1")], 60, .bool true⟩ "a" = true ∧
    param_headers ⟨"u", [("a", some "1")], 60, .bool true⟩ "a" ≠ none :=
  ⟨(exist_param_headers_iff ⟨"u", [("a", some "1")], 60, .bool true⟩ "a").mpr
      (by decide),
   (exist_param_headers_iff ⟨"u", [("a", some "1")], 60, .bool true⟩ "a").mp
      (by decide)⟩

/-- C10: storing the absent marker (`None`) under `k` is observationally
absence: `param_headers(k)` returns the absent marker and
`exist_param_headers(k)` is `false`, although `k` is present in the
underlying mapping (bound to `None`). -/
theorem add_none_indistinguishable (cm : CMState) (k : String) :
    param_headers (add_param_headers cm k none) k = none ∧
    exist_param_headers (add_param_headers cm k none) k = false ∧
    dictGet (add_param_headers cm k none).headers k = some none := by
  have h := dictGet_dictSet_self cm.headers k none
  refine ⟨?_, ?_, h⟩ <;>
    simp [param_headers, exist_param_headers, add_param_headers, h]

theorem add_none_indistinguishable_witness :
    param_headers (add_param_headers ⟨"u", [], 60, .bool true⟩ "a" none) "a"
      = none ∧
    exist_param_headers (add_param_headers ⟨"u", [], 60, .bool true⟩ "a" none)
      "a" = false ∧
    dictGet (add_param_headers ⟨"u", [], 60, .bool true⟩ "a" none).headers "a"
      = some none :=
  add_none_indistinguishable ⟨"u", [], 60, .bool true⟩ "a"

/-! ## Error-wrapping and frame claims for the request methods -/

/-- C2: each of `raw_get`/`raw_post`/`raw_put`/`raw_delete` makes exactly
one transport call (counter advances by one — no retry); when the call
completes with a response the response is returned untouched, whatever
its status code (so 4xx/5xx are not errors); when the call raises with
message `e`, the method fails with the single generic connection error
`"Can't connect to server (e)"` — one error shape for every cause, the
cause kept in the message. -/
theorem raw_ops_error_policy :
    (∀ (cm : CMState) (path : String) (kw : List (String × String))
        (t : Transport) (n : Nat),
      (raw_get cm path kw t n).2.1 = n + 1 ∧
      (∀ r, t n (getRequest cm path kw) = .ok r →
        (raw_get cm path kw t n).1 = .ok r) ∧
      (∀ e, t n (getRequest cm path kw) = .error e →
        (raw_get cm path kw t n).1 = .error (wrapErr e))) ∧
    (∀ (cm : CMState) (path : String) (data : Dict)
        (kw : List (String × String)) (t : Transport) (n : Nat),
      (raw_post cm path data kw t n).2.1 = n + 1 ∧
      (∀ r, t n (postRequest cm path data kw) = .ok r →
        (raw_post cm path data kw t n).1 = .ok r) ∧
      (∀ e, t n (postRequest cm path data kw) = .error e →
        (raw_post cm path data kw t n).1 = .error (wrapErr e))) ∧
    (∀ (cm : CMState) (path : String) (data : Dict)
        (kw : List (String × String)) (t : Transport) (n : Nat),
      (raw_put cm path data kw t n).2.1 = n + 1 ∧
      (∀ r, t n (putRequest cm path data kw) = .ok r →
        (raw_put cm path data kw t n).1 = .ok r) ∧
      (∀ e, t n (putRequest cm path data kw) = .error e →
        (raw_put cm path data kw t n).1 = .error (wrapErr e))) ∧
    (∀ (cm : CMState) (path : String) (data : Option Dict)
        (kw : List (String × String)) (t : Transport) (n : Nat),
      (raw_delete cm path data kw t n).2.1 = n + 1 ∧
      (∀ r, t n (deleteRequest cm path data kw) = .ok r →
        (raw_delete cm path data kw t n).1 = .ok r) ∧
      (∀ e, t n (deleteRequest cm path data kw) = .error e →
        (raw_delete cm path data kw t n).1 = .error (wrapErr e))) ∧
    (∀ e : String, ∃ pre post : String, wrapErr e = pre ++ e ++ post) := by
  refine ⟨?_, ?_, ?_, ?_, fun e => ⟨"Can't connect to server (", ")", rfl⟩⟩
  · intro cm path kw t n
    refine ⟨?_, fun r hr => ?_, fun e he => ?_⟩ <;>
      cases h : t n (getRequest cm path kw) <;>
      simp_all [raw_get]
  · intro cm path data kw t n
    refine ⟨?_, fun r hr => ?_, fun e he => ?_⟩ <;>
      cases h : t n (postRequest cm path data kw) <;>
      simp_all [raw_post]
  · intro cm path data kw t n
    refine ⟨?_, fun r hr => ?_, fun e he => ?_⟩ <;>
      cases h : t n (putRequest cm path data kw) <;>
      simp_all [raw_put]
  · intro cm path data kw t n
    refine ⟨?_, fun r hr => ?_, fun e he => ?_⟩ <;>
      cases h : t n (deleteRequest cm path data kw) <;>
      simp_all [raw_delete]

theorem raw_ops_error_policy_witness :
    (raw_get cmEx "/x" [] tErr 0).1 = .error (wrapErr "timeout") ∧
    (raw_get cmEx "/x" [] tErr 0).2.1 = 1 ∧
    (raw_post cmEx "/x" [] [] tServerError 0).1 = .ok ⟨500, [], "oops"⟩ ∧
    (raw_put cmEx "/x" [] [] tErr 3).2.1 = 4 ∧
    (raw_delete cmEx "/x" none [] tServerError 0).1 = .ok ⟨500, [], "oops"⟩ :=
  ⟨(raw_ops_error_policy.1 cmEx "/x" [] tErr 0).2.2 "timeout" rfl,
   (raw_ops_error_policy.1 cmEx "/x" [] tErr 0).1,
   (raw_ops_error_policy.2.1 cmEx "/x" [] [] tServerError 0).2.1
     ⟨500, [], "oops"⟩ rfl,
   (raw_ops_error_policy.2.2.1 cmEx "/x" [] [] tErr 3).1,
   (raw_ops_error_policy.2.2.2.1 cmEx "/x" none [] tServerError 0).2.1
     ⟨500, [], "oops"⟩ rfl⟩

/-- C9: each property setter changes only its own field, and each
`raw_*` method returns with the whole configuration exactly as it was,
whether the transport call completed or raised. -/
theorem setters_and_requests_frame :
    (∀ (cm : CMState) (u : String),
      (set_base_url cm u).headers = cm.headers ∧
      (set_base_url cm u).timeout = cm.timeout ∧
      (set_base_url cm u).verify = cm.verify) ∧
    (∀ (cm : CMState) (v : Int),
      (set_timeout cm v).base_url = cm.base_url ∧
      (set_timeout cm v).headers = cm.headers ∧
      (set_timeout cm v).verify = cm.verify) ∧
    (∀ (cm : CMState) (v : VerifyVal),
      (set_verify cm v).base_url = cm.base_url ∧
      (set_verify cm v).headers = cm.headers ∧
      (set_verify cm v).timeout = cm.timeout) ∧
    (∀ (cm : CMState) (d : Dict),
      (set_headers cm d).base_url = cm.base_url ∧
      (set_headers cm d).timeout = cm.timeout ∧
      (set_headers cm d).verify = cm.verify) ∧
    (∀ (cm : CMState) (path : String) (kw : List (String × String))
        (t : Transport) (n : Nat), (raw_get cm path kw t n).2.2 = cm) ∧
    (∀ (cm : CMState) (path : String) (data : Dict)
        (kw : List (String × String)) (t : Transport) (n : Nat),
      (raw_post cm path data kw t n).2.2 = cm) ∧
    (∀ (cm : CMState) (path : String) (data : Dict)
        (kw : List (String × String)) (t : Transport) (n : Nat),
      (raw_put cm path data kw t n).2.2 = cm) ∧
    (∀ (cm : CMState) (path : String) (data : Option Dict)
        (kw : List (String × String)) (t : Transport) (n : Nat),
      (raw_delete cm path data kw t n).2.2 = cm) := by
  refine ⟨fun cm u => ⟨rfl, rfl, rfl⟩, fun cm v => ⟨rfl, rfl, rfl⟩,
    fun cm v => ⟨rfl, rfl, rfl⟩, fun cm d => ⟨rfl, rfl, rfl⟩,
    ?_, ?_, ?_, ?_⟩
  · intro cm path kw t n
    cases h : t n (getRequest cm path kw) <;> simp [raw_get, h]
  · intro cm path data kw t n
    cases h : t n (postRequest cm path data kw) <;> simp [raw_post, h]
  · intro cm path data kw t n
    cases h : t n (putRequest cm path data kw) <;> simp [raw_put, h]
  · intro cm path data kw t n
    cases h : t n (deleteRequest cm path data kw) <;> simp [raw_delete, h]

theorem setters_and_requests_frame_witness :
    (set_base_url cmEx "http://other/").headers = cmEx.headers ∧
    (set_timeout cmEx 5).base_url = cmEx.base_url ∧
    (set_verify cmEx (.bool false)).timeout = cmEx.timeout ∧
    (set_headers cmEx []).verify = cmEx.verify ∧
    (raw_get cmEx "/x" [] tErr 0).2.2 = cmEx ∧
    (raw_delete cmEx "/x" none [] tServerError 0).2.2 = cmEx :=
  ⟨(setters_and_requests_frame.1 cmEx "http://other/").1,
   (setters_and_requests_frame.2.1 cmEx 5).1,
   (setters_and_requests_frame.2.2.1 cmEx (.bool false)).2.2,
   (setters_and_requests_frame.2.2.2.1 cmEx []).2.2,
   setters_and_requests_frame.2.2.2.2.1 cmEx "/x" [] tErr 0,
   setters_and_requests_frame.2.2.2.2.2.2.2 cmEx "/x" none [] tServerError 0⟩

/-! ## Object-identity claims (heap model) -/

/-- C4 (the code violates it): both instances constructed without a
`headers` argument hold the *same* module-level default dict (Python's
mutable-default-argument behaviour of `headers={}`), so adding a header
through one instance makes it visible through the other:
`param_headers`/`exist_param_headers` on the second instance report the
value added via the first. -/
theorem shared_default_headers_leak :
    hParamHeaders (mkHeapCM "http://b" none 60 (.bool true))
      (hAddParamHeaders (mkHeapCM "http://a" none 60 (.bool true))
        "X-Token" (some "abc") initHeap)
      "X-Token" = some "abc" ∧
    hExistParamHeaders (mkHeapCM "http://b" none 60 (.bool true))
      (hAddParamHeaders (mkHeapCM "http://a" none 60 (.bool true))
        "X-Token" (some "abc") initHeap)
      "X-Token" = true := by
  constructor <;> rfl

/-- C5 counterexample: `clean_headers` does *not* operate on the same
mapping object in place — it rebinds `self.headers` to a different
(fresh) dict and leaves the old object's contents untouched. -/
theorem clean_headers_not_in_place :
    ((hCleanHeaders (⟨"http://h", 1, 60, .bool true⟩ : HeapCM)
        [[], [("a", some "1")]]).1.headersRef ≠
      (⟨"http://h", 1, 60, .bool true⟩ : HeapCM).headersRef) ∧
    heapGet (hCleanHeaders (⟨"http://h", 1, 60, .bool true⟩ : HeapCM)
        [[], [("a", some "1")]]).2 1 = [("a", some "1")] := by
  exact ⟨by decide, rfl⟩

/-- C5 as the code has it: the `headers` reference of an instance is
always a valid mapping (dereferenceable, and every operation keeps it
so); `add_param_headers` and `del_param_headers` mutate the referenced
dict in place (same reference, store size unchanged, all other objects
untouched); but `clean_headers` *replaces* the mapping: it allocates a
fresh empty dict, rebinds the attribute to it, and leaves the previously
referenced object unchanged. -/
theorem headers_mutation_discipline (cm : HeapCM) (h : Heap) (k : String)
    (v : Option String) (hwf : cm.headersRef < h.length) :
    (hAddParamHeaders cm k v h).length = h.length ∧
    heapGet (hAddParamHeaders cm k v h) cm.headersRef
      = dictSet (heapGet h cm.headersRef) k v ∧
    (∀ r, r ≠ cm.headersRef →
      heapGet (hAddParamHeaders cm k v h) r = heapGet h r) ∧
    cm.headersRef < (hAddParamHeaders cm k v h).length ∧
    (hDelParamHeaders cm k h).length = h.length ∧
    heapGet (hDelParamHeaders cm k h) cm.headersRef
      = dictPop (heapGet h cm.headersRef) k ∧
    (∀ r, r ≠ cm.headersRef →
      heapGet (hDelParamHeaders cm k h) r = heapGet h r) ∧
    cm.headersRef < (hDelParamHeaders cm k h).length ∧
    (hCleanHeaders cm h).1.headersRef = h.length ∧
    heapGet (hCleanHeaders cm h).2 (hCleanHeaders cm h).1.headersRef = [] ∧
    (∀ r, r < h.length → heapGet (hCleanHeaders cm h).2 r = heapGet h r) ∧
    (hCleanHeaders cm h).1.headersRef < (hCleanHeaders cm h).2.length := by
  refine ⟨?_, ?_, ?_, ?_, ?_, ?_, ?_, ?_, rfl, ?_, ?_, ?_⟩
  · simp [hAddParamHeaders, heapSet]
  · simp [hAddParamHeaders, heapSet, heapGet, List.getElem?_set_self hwf]
  · intro r hr
    simp [hAddParamHeaders, heapSet, heapGet,
      List.getElem?_set_ne (Ne.symm hr)]
  · simpa [hAddParamHeaders, heapSet] using hwf
  · simp [hDelParamHeaders, heapSet]
  · simp [hDelParamHeaders, heapSet, heapGet, List.getElem?_set_self hwf]
  · intro r hr
    simp [hDelParamHeaders, heapSet, heapGet,
      List.getElem?_set_ne (Ne.symm hr)]
  · simpa [hDelParamHeaders, heapSet] using hwf
  · simp [hCleanHeaders, heapGet, List.getElem?_append_right (Nat.le_refl _)]
  · intro r hr
    simp [hCleanHeaders, heapGet, List.getElem?_append_left hr]
  · simp [hCleanHeaders]

theorem headers_mutation_discipline_witness :
    (hAddParamHeaders (⟨"u", 0, 60, .bool true⟩ : HeapCM) "a" (some "1")
      initHeap).length = initHeap.length ∧
    heapGet (hCleanHeaders (⟨"u", 0, 60, .bool true⟩ : HeapCM) initHeap).2
      (hCleanHeaders (⟨"u", 0, 60, .bool true⟩ : HeapCM) initHeap).1.headersRef
      = [] := by
  have h := headers_mutation_discipline (⟨"u", 0, 60, .bool true⟩ : HeapCM)
    initHeap "a" (some "1") (by decide)
  exact ⟨h.1, h.2.2.2.2.2.2.2.2.2.1⟩

/-! ## URL-join lemmas -/

namespace PyUrl

theorem splitFirst_eq_none (c : Char) (l : Chars) (h : c ∉ l) :
    splitFirst c l = none := by
  induction l with
  | nil => rfl
  | cons x xs ih =>
    simp only [List.mem_cons, not_or] at h
    simp [splitFirst, Ne.symm h.1, ih h.2]

theorem splitFirst_append (c : Char) (a b : Chars) (h : c ∉ a) :
    splitFirst c (a ++ c :: b) = some (a, b) := by
  induction a with
  | nil => simp [splitFirst]
  | cons x xs ih =>
    simp only [List.mem_cons, not_or] at h
    simp [splitFirst, Ne.symm h.1, ih h.2]

theorem splitNetloc_append (host rest : Chars)
    (hh : ∀ x ∈ host, ¬(x = '/' ∨ x = '?' ∨ x = '#'))
    (hr : rest = [] ∨ rest.head? = some '/') :
    splitNetloc (host ++ rest) = (host, rest) := by
  induction host with
  | nil =>
    rcases hr with h | h
    · subst h; rfl
    · cases rest with
      | nil => rfl
      | cons y ys =>
        simp only [List.head?_cons, Option.some.injEq] at h
        subst h
        simp [splitNetloc]
  | cons x xs ih =>
    have hx := hh x (List.mem_cons_self x xs)
    simp [splitNetloc, hx, ih fun y hy => hh y (List.mem_cons_of_mem _ hy)]

theorem cutFirst_of_not_mem (c : Char) (l : Chars) (h : c ∉ l) :
    cutFirst c l = (l, []) := by
  simp [cutFirst, splitFirst_eq_none c l h]

theorem schemeSplit_of_not_mem (l d : Chars) (h : ':' ∉ l) :
    schemeSplit l d = (d, l) := by
  simp [schemeSplit, splitFirst_eq_none ':' l h]

theorem schemeSplit_http (b d : Chars) :
    schemeSplit ('h' :: 't' :: 't' :: 'p' :: ':' :: b) d
      = (['h', 't', 't', 'p'], b) := by
  simp [schemeSplit, splitFirst,
    show schemeOk ['h', 't', 't', 'p'] = true from rfl,
    show List.map Char.toLower ['h', 't', 't', 'p'] = ['h', 't', 't', 'p']
      from by decide]

theorem netlocSplit_plain (l : Chars) (h : startsDoubleSlash l = false) :
    netlocSplit l = ([], l) := by
  simp [netlocSplit, h]

theorem netlocSplit_dslash (x : Chars) :
    netlocSplit ('/' :: '/' :: x) = splitNetloc x := by
  simp [netlocSplit, show startsDoubleSlash ('/' :: '/' :: x) = true from rfl]

theorem urlsplit_plain (l d : Chars) (hc : ':' ∉ l) (hf : '#' ∉ l)
    (hq : '?' ∉ l) (hds : startsDoubleSlash l = false) :
    urlsplit l d = ⟨d, [], l, [], []⟩ := by
  simp [urlsplit, schemeSplit_of_not_mem l d hc, netlocSplit_plain l hds,
    cutFirst_of_not_mem '#' l hf, cutFirst_of_not_mem '?' l hq]

theorem urlsplit_http_base (host bpath : Chars)
    (hh : ∀ x ∈ host, ¬(x = '/' ∨ x = '?' ∨ x = '#'))
    (hb : bpath = [] ∨ bpath.head? = some '/')
    (hf : '#' ∉ bpath) (hq : '?' ∉ bpath) :
    urlsplit ('h' :: 't' :: 't' :: 'p' :: ':' :: '/' :: '/' :: (host ++ bpath))
        []
      = ⟨['h', 't', 't', 'p'], host, bpath, [], []⟩ := by
  simp [urlsplit, schemeSplit_http ('/' :: '/' :: (host ++ bpath)) [],
    netlocSplit_dslash, splitNetloc_append host bpath hh hb,
    cutFirst_of_not_mem '#' bpath hf, cutFirst_of_not_mem '?' bpath hq]

theorem urlparse_plain (l d : Chars) (hc : ':' ∉ l) (hf : '#' ∉ l)
    (hq : '?' ∉ l) (hs : ';' ∉ l) (hds : startsDoubleSlash l = false) :
    urlparse l d = ⟨d, [], l, [], [], []⟩ := by
  simp [urlparse, urlsplit_plain l d hc hf hq hds, hs]

theorem urlparse_http_base (host bpath : Chars)
    (hh : ∀ x ∈ host, ¬(x = '/' ∨ x = '?' ∨ x = '#'))
    (hb : bpath = [] ∨ bpath.head? = some '/')
    (hf : '#' ∉ bpath) (hq : '?' ∉ bpath) (hs : ';' ∉ bpath) :
    urlparse ('h' :: 't' :: 't' :: 'p' :: ':' :: '/' :: '/' :: (host ++ bpath))
        []
      = ⟨['h', 't', 't', 'p'], host, bpath, [], [], []⟩ := by
  simp [urlparse, urlsplit_http_base host bpath hh hb hf hq, hs]

theorem splitOnChar_ne_nil (c : Char) (l : Chars) : splitOnChar c l ≠ [] := by
  cases l with
  | nil => simp [splitOnChar]
  | cons x xs =>
    simp only [splitOnChar]
    cases splitOnChar c xs with
    | nil => simp
    | cons h t =>
      by_cases hx : x = c <;> simp [hx]

theorem mem_of_mem_splitOnChar (c : Char) (l : Chars) :
    ∀ s ∈ splitOnChar c l, ∀ x ∈ s, x ∈ l := by
  induction l with
  | nil =>
    intro s hs x hx
    simp [splitOnChar] at hs
    subst hs
    simp at hx
  | cons y ys ih =>
    intro s hs x hx
    simp only [splitOnChar] at hs
    rcases eq : splitOnChar c ys with _ | ⟨h, t⟩
    · exact absurd eq (splitOnChar_ne_nil c ys)
    · rw [eq] at hs
      by_cases hy : y = c
      · simp only [hy, if_pos rfl] at hs
        rcases List.mem_cons.mp hs with rfl | hs'
        · simp at hx
        · exact List.mem_cons_of_mem _ (ih s (eq ▸ hs') x hx)
      · simp only [if_neg hy] at hs
        rcases List.mem_cons.mp hs with rfl | hs'
        · rcases List.mem_cons.mp hx with rfl | hx'
          · exact List.mem_cons_self x ys
          · exact List.mem_cons_of_mem _
              (ih h (eq ▸ List.mem_cons_self h t) x hx')
        · exact List.mem_cons_of_mem _
            (ih s (eq ▸ List.mem_cons_of_mem h hs') x hx)

theorem joinWith_splitOnChar (c : Char) (l : Chars) :
    joinWith c (splitOnChar c l) = l := by
  induction l with
  | nil => rfl
  | cons x xs ih =>
    simp only [splitOnChar]
    rcases eq : splitOnChar c xs with _ | ⟨h, t⟩
    · exact absurd eq (splitOnChar_ne_nil c xs)
    · rw [eq] at ih
      show joinWith c (if x = c then [] :: h :: t else (x :: h) :: t) = x :: xs
      by_cases hx : x = c
      · rw [if_pos hx]
        show [] ++ c :: joinWith c (h :: t) = x :: xs
        rw [ih, hx]
        rfl
      · rw [if_neg hx]
        cases t with
        | nil =>
          show x :: h = x :: xs
          rw [show h = xs from ih]
        | cons t0 ts =>
          show (x :: h) ++ c :: joinWith c (t0 :: ts) = x :: xs
          rw [List.cons_append,
            show h ++ c :: joinWith c (t0 :: ts) = xs from ih]

theorem resolveSegments_no_dots (segs : List Chars) (acc : List Chars)
    (h : ∀ s ∈ segs, s ≠ ['.'] ∧ s ≠ ['.', '.']) :
    resolveSegments acc segs = acc ++ segs := by
  induction segs generalizing acc with
  | nil => simp [resolveSegments]
  | cons s rest ih =>
    have hs := h s (List.mem_cons_self s rest)
    simp [resolveSegments, hs.1, hs.2,
      ih (acc ++ [s]) fun s' hs' => h s' (List.mem_cons_of_mem _ hs')]

end PyUrl

namespace PyUrl

/-- Absolute-path resolution: against a base of the shape
`http://host<bpath>`, a path starting with `/` (and free of the reserved
characters that would start a query, fragment, params or netloc, and of
dot segments) replaces the base's path entirely. -/
theorem urljoin_absolute (host bpath rest : Chars)
    (hhost : host ≠ [])
    (hh : ∀ x ∈ host, ¬(x = '/' ∨ x = '?' ∨ x = '#'))
    (hb : bpath = [] ∨ bpath.head? = some '/')
    (hbf : '#' ∉ bpath) (hbq : '?' ∉ bpath) (hbs : ';' ∉ bpath)
    (hrc : ':' ∉ rest) (hrf : '#' ∉ rest) (hrq : '?' ∉ rest) (hrs : ';' ∉ rest)
    (hrd : '.' ∉ rest) (hrh : rest.head? ≠ some '/') :
    urljoin ('h' :: 't' :: 't' :: 'p' :: ':' :: '/' :: '/' :: (host ++ bpath))
        ('/' :: rest)
      = 'h' :: 't' :: 't' :: 'p' :: ':' :: '/' :: '/' :: (host ++ '/' :: rest) := by
  have notmem : ∀ c : Char, c ≠ '/' → c ∉ rest → c ∉ ('/' :: rest) := by
    intro c hc hr hm
    rcases List.mem_cons.mp hm with h | h
    · exact hc h
    · exact hr h
  have hds : startsDoubleSlash ('/' :: rest) = false := by
    cases rest with
    | nil => rfl
    | cons y ys =>
      have hy : y ≠ '/' := fun he => hrh (by simp [he])
      simp [startsDoubleSlash, hy]
  have hB := urlparse_http_base host bpath hh hb hbf hbq hbs
  have hR := urlparse_plain ('/' :: rest) ['h', 't', 't', 'p']
    (notmem ':' (by decide) hrc) (notmem '#' (by decide) hrf)
    (notmem '?' (by decide) hrq) (notmem ';' (by decide) hrs) hds
  have hdot : '.' ∉ ('/' :: rest) := notmem '.' (by decide) hrd
  have hnodots : ∀ s ∈ splitOnChar '/' ('/' :: rest),
      s ≠ ['.'] ∧ s ≠ ['.', '.'] := by
    intro s hs
    constructor <;> intro he <;> subst he
    · exact hdot (mem_of_mem_splitOnChar '/' ('/' :: rest) _ hs '.' (by simp))
    · exact hdot (mem_of_mem_splitOnChar '/' ('/' :: rest) _ hs '.' (by simp))
  simp only [urljoin, hB, hR]
  rw [if_neg (show ¬('h' :: 't' :: 't' :: 'p' :: ':' :: '/' :: '/' ::
        (host ++ bpath) = []) by simp),
    if_neg (show ¬('/' :: rest = []) by simp),
    if_neg (show ¬(['h', 't', 't', 'p'] ≠ ['h', 't', 't', 'p'] ∨
        ¬usesRelative.contains ['h', 't', 't', 'p'] = true) by decide),
    if_neg (show ¬(usesNetloc.contains ['h', 't', 't', 'p'] = true ∧
        ([] : Chars) ≠ []) by decide),
    if_neg (show ¬('/' :: rest = [] ∧ True) by simp),
    if_pos (show usesNetloc.contains ['h', 't', 't', 'p'] = true by decide),
    if_pos (show ('/' :: rest).head? = some '/' from rfl),
    resolveSegments_no_dots _ [] hnodots]
  rcases heq : (splitOnChar '/' ('/' :: rest)).getLast? with _ | s
  · exact absurd (List.getLast?_eq_none_iff.mp heq) (splitOnChar_ne_nil '/' _)
  · have hns := hnodots s (List.mem_of_getLast?_eq_some heq)
    simp [hns.1, hns.2, joinWith_splitOnChar, urlunparse, urlunsplit, hhost]

end PyUrl

/-! ## URL-resolution claims -/

/-- C1 counterexample: against base URL `"http://host/api/"`, `raw_get`
with path `"/foo"` targets `"http://host/foo"` — the absolute path
replaces the base's path entirely — and *not* `"http://host/api/foo"` as
the claim's first example states. -/
theorem urljoin_example_counterexample :
    (getRequest ⟨"http://host/api/", [], 60, .bool true⟩ "/foo" []).url
      = "http://host/foo".data ∧
    (getRequest ⟨"http://host/api/", [], 60, .bool true⟩ "/foo" []).url
      ≠ "http://host/api/foo".data := by
  constructor <;> decide

/-- C1 (amended): every `raw_*` operation resolves its target URL as
`urljoin(base_url, path)` (CPython's standard URL-join); against base
`"http://host/api/"`, `raw_get("/foo")` targets `"http://host/foo"` and
`raw_get("/bar")` targets `"http://host/bar"` (an absolute path — one
starting with `/` — replaces the base's path entirely, proved in general
in the last conjunct); a path carrying a scheme and netloc replaces the
base entirely, as the `"http://other/x"` conjunct illustrates. -/
theorem raw_target_url_resolution :
    (∀ (cm : CMState) (path : String) (kw : List (String × String)),
      (getRequest cm path kw).url
        = PyUrl.urljoin cm.base_url.data path.data) ∧
    (∀ (cm : CMState) (path : String) (data : Dict)
        (kw : List (String × String)),
      (postRequest cm path data kw).url
        = PyUrl.urljoin cm.base_url.data path.data) ∧
    (∀ (cm : CMState) (path : String) (data : Dict)
        (kw : List (String × String)),
      (putRequest cm path data kw).url
        = PyUrl.urljoin cm.base_url.data path.data) ∧
    (∀ (cm : CMState) (path : String) (data : Option Dict)
        (kw : List (String × String)),
      (deleteRequest cm path data kw).url
        = PyUrl.urljoin cm.base_url.data path.data) ∧
    (getRequest ⟨"http://host/api/", [], 60, .bool true⟩ "/foo" []).url
      = "http://host/foo".data ∧
    (getRequest ⟨"http://host/api/", [], 60, .bool true⟩ "/bar" []).url
      = "http://host/bar".data ∧
    (getRequest ⟨"http://host/api/", [], 60, .bool true⟩ "http://other/x"
        []).url = "http://other/x".data ∧
    (∀ host bpath rest : PyUrl.Chars, host ≠ [] →
      (∀ x ∈ host, ¬(x = '/' ∨ x = '?' ∨ x = '#')) →
      (bpath = [] ∨ bpath.head? = some '/') →
      '#' ∉ bpath → '?' ∉ bpath → ';' ∉ bpath →
      ':' ∉ rest → '#' ∉ rest → '?' ∉ rest → ';' ∉ rest → '.' ∉ rest →
      rest.head? ≠ some '/' →
      PyUrl.urljoin ("http://".data ++ host ++ bpath) ('/' :: rest)
        = "http://".data ++ host ++ '/' :: rest) := by
  have e : ∀ x y : PyUrl.Chars, "http://".data ++ x ++ y
      = 'h' :: 't' :: 't' :: 'p' :: ':' :: '/' :: '/' :: (x ++ y) := by
    intro x y
    simp [show "http://".data = ['h', 't', 't', 'p', ':', '/', '/'] from rfl]
  refine ⟨fun cm path kw => rfl, fun cm path data kw => rfl,
    fun cm path data kw => rfl, fun cm path data kw => rfl,
    by decide, by decide, by decide, ?_⟩
  intro host bpath rest hhost hh hb hbf hbq hbs hrc hrf hrq hrs hrd hrh
  rw [e host bpath, e host ('/' :: rest)]
  exact PyUrl.urljoin_absolute host bpath rest hhost hh hb hbf hbq hbs hrc
    hrf hrq hrs hrd hrh

theorem raw_target_url_resolution_witness :
    PyUrl.urljoin ("http://".data ++ "host".data ++ "/api/".data)
        ('/' :: "foo".data)
      = "http://".data ++ "host".data ++ '/' :: "foo".data :=
  raw_target_url_resolution.2.2.2.2.2.2.2 "host".data "/api/".data "foo".data
    (by decide) (by decide) (by decide) (by decide) (by decide) (by decide)
    (by decide) (by decide) (by decide) (by decide) (by decide) (by decide)
